import Mathlib

/-!
Shallow embedding of `copyfighter` (src/main.go): a static analyzer that
flags Go functions passing "wide" structs by value.  We embed the size
model (`go/types.StdSizes` with configurable `WordSize`/`MaxAlign`), the
wide-type classifier of `checkPkg`, the signature scanner
`findCopySites`, the reporter `printSites`/`sortedCopySites`, and the
description joiner `sentence`.
-/

namespace Copyfighter

/-- Go type references as the scanner and size model see them, a closed
variant mirroring the `go/types.Type` cases the program touches:
`basic` carries the primitive's rendered name and its resolved byte
size, `pointer`/`slice` are reference types, `named` is a defined type
(`*types.Named`, carrying `Obj().Id()` and the underlying type), and
`struct` is a (possibly anonymous) struct literal with its ordered
field types. -/
inductive GoType where
  | basic : String → Int → GoType
  | pointer : GoType → GoType
  | slice : GoType → GoType
  | named : String → GoType → GoType
  | struct : List GoType → GoType

/-- Rounds `x` up to a multiple of `a`; `align` from go/types sizes.go
(`y := x + a - 1; return y - y%a`, with Go's truncating `%`). -/
def align (x a : Int) : Int :=
  let y := x + a - 1
  y - Int.tmod y a

/-- The clamp applied by `StdSizes.Alignof`'s default branch to a size
`a`: `if a < 1 { return 1 }; if a > s.MaxAlign { a = s.MaxAlign }`. -/
def clampAlign (m a : Int) : Int :=
  if a < 1 then 1 else if m < a then m else a

mutual

/-- Embeds `types.StdSizes.Sizeof` with `WordSize := w`, `MaxAlign := m`:
basics keep their resolved size, every pointer-shaped type contributes
exactly the word size, slices are three words, `Named` defers to its
underlying type, and a struct is the last field's aligned offset plus
the last field's size (go/types adds no trailing struct padding);
the empty struct has size 0. -/
def gsizeof (w m : Int) (t : GoType) : Int :=
  match t with
  | .basic _ sz => sz
  | .pointer _ => w
  | .slice _ => 3 * w
  | .named _ u => gsizeof w m u
  | .struct fs => structSizeFrom w m fs 0

/-- Embeds `types.StdSizes.Alignof`: a struct's alignment is the
maximum field alignment (at least 1), `Named` defers to the underlying
type, and every other case falls to the default branch
`clampAlign m (Sizeof t)`, written out per constructor
(basic: its size; pointer: one word; slice: three words). -/
def galignof (w m : Int) (t : GoType) : Int :=
  match t with
  | .basic _ sz => clampAlign m sz
  | .pointer _ => clampAlign m w
  | .slice _ => clampAlign m (3 * w)
  | .named _ u => galignof w m u
  | .struct fs => maxFieldAlign w m fs

/-- The offset loop of `StdSizes.Offsetsof` fused with the struct case
of `Sizeof`: starting from offset `o`, each field's offset is `o`
rounded up to the field's alignment and the next offset adds the
field's size; the result is the last field's offset plus its size,
and 0 for no fields. -/
def structSizeFrom (w m : Int) (fs : List GoType) (o : Int) : Int :=
  match fs with
  | [] => 0
  | [f] => align o (galignof w m f) + gsizeof w m f
  | f :: f2 :: r => structSizeFrom w m (f2 :: r) (align o (galignof w m f) + gsizeof w m f)

/-- The struct branch of `Alignof`: `max := 1`, raised to each field's
alignment. -/
def maxFieldAlign (w m : Int) (fs : List GoType) : Int :=
  match fs with
  | [] => 1
  | f :: r => max (galignof w m f) (maxFieldAlign w m r)

end

/-- Renders a type the way the diagnostic uses it (`%s` on a
`types.Type`); for the program's output only the `named` case is ever
reached, since only named types are flagged. -/
def typeString (t : GoType) : String :=
  match t with
  | .basic n _ => n
  | .pointer u => "*" ++ typeString u
  | .slice u => "[]" ++ typeString u
  | .named n _ => n
  | .struct _ => "struct\x7b...\x7d"

/-- Embeds the `sentence` helper of main.go: empty input renders "", a single
part renders bare, and otherwise the parts before the last are joined
with ", " and the last is appended after ", and ". -/
def sentence (parts : List String) : String :=
  match parts with
  | [] => ""
  | [p] => p
  | _ => String.intercalate ", " parts.dropLast ++ ", and " ++ parts.getLastD ""

/-- A declaration source position as reported through the file set:
file name, line, column. -/
structure Position where
  filename : String
  line : Nat
  col : Nat
deriving DecidableEq

/-- A parameter or result variable (`*types.Var`): its name (possibly
empty) and its type. -/
structure Param where
  vname : String
  ty : GoType

/-- A function as the scanner sees it (`*types.Func` with its
`*types.Signature`): `funcStr` is the `%s` rendering used inside the
parentheses of a diagnostic, `pos` its declaration position, `recv`
the optional receiver type, then parameters and results in order. -/
structure FuncSig where
  funcStr : String
  pos : Position
  recv : Option GoType
  params : List Param
  results : List GoType

/-- The `copySite` record of main.go: the offending function and the
ordered "should be made into a pointer" descriptions (`shouldBe`).
The source names the first field `fun`, a Lean keyword. -/
structure copySite where
  fn : FuncSig
  shouldBe : List String

/-- Embeds `isWideStructTyped`: true only when the type is a `*types.Named`
whose id is in the wide set; every other shape (pointer, slice, basic,
anonymous struct) answers false. -/
def isWideStructTyped (t : GoType) (wideStructs : String → Bool) : Bool :=
  match t with
  | .named id _ => wideStructs id
  | _ => false

/-- The receiver step of `findCopySites`: a wide by-value receiver
contributes the single description "receiver". -/
def recvDescs (f : FuncSig) (wide : String → Bool) : List String :=
  match f.recv with
  | some rt => if isWideStructTyped rt wide then ["receiver"] else []
  | none => []

/-- The parameter loop of `findCopySites`, carrying the running index
`i`: a wide by-value parameter contributes "parameter 'name' at index
i" (or "parameter at index i" when the name is empty). -/
def paramDescsFrom (wide : String → Bool) (i : Nat) (ps : List Param) : List String :=
  match ps with
  | [] => []
  | p :: r =>
    (if isWideStructTyped p.ty wide then
       [(if p.vname = "" then "parameter"
         else "parameter \x27" ++ p.vname ++ "\x27") ++ " at index " ++ toString i]
     else []) ++ paramDescsFrom wide (i + 1) r

/-- The descriptions the parameter loop appends for `f`. -/
def paramDescs (f : FuncSig) (wide : String → Bool) : List String :=
  paramDescsFrom wide 0 f.params

/-- The result loop of `findCopySites`, carrying the running index `i`:
a wide by-value result contributes "return value 'type' at index i". -/
def resultDescsFrom (wide : String → Bool) (i : Nat) (ts : List GoType) : List String :=
  match ts with
  | [] => []
  | t :: r =>
    (if isWideStructTyped t wide then
       ["return value \x27" ++ typeString t ++ "\x27 at index " ++ toString i]
     else []) ++ resultDescsFrom wide (i + 1) r

/-- The descriptions the result loop appends for `f`. -/
def resultDescs (f : FuncSig) (wide : String → Bool) : List String :=
  resultDescsFrom wide 0 f.results

/-- The full `shouldBe` list one signature accumulates, in the source's
receiver-then-parameters-then-results append order. -/
def offendingDescs (f : FuncSig) (wide : String → Bool) : List String :=
  recvDescs f wide ++ paramDescs f wide ++ resultDescs f wide

/-- Embeds `findCopySites`: one pass over the functions; a signature whose
accumulated `shouldBe` list is nonempty appends exactly one
`copySite`, a signature with no offending position appends nothing. -/
def findCopySites (funcs : List FuncSig) (wide : String → Bool) : List copySite :=
  match funcs with
  | [] => []
  | f :: fs =>
    let shouldBe := offendingDescs f wide
    (if 0 < shouldBe.length then [⟨f, shouldBe⟩] else []) ++ findCopySites fs wide

/-- The comparison of `sortedCopySites.Less`: file names first (Go's
byte-lexicographic `<` on strings, which on valid UTF-8 agrees with
comparison of the character sequences), then line, then column. -/
def siteLess (a b : copySite) : Bool :=
  if a.fn.pos.filename ≠ b.fn.pos.filename then
    decide (a.fn.pos.filename < b.fn.pos.filename)
  else if a.fn.pos.line ≠ b.fn.pos.line then
    decide (a.fn.pos.line < b.fn.pos.line)
  else
    decide (a.fn.pos.col < b.fn.pos.col)

/-- Inserting one element into an already sorted prefix: the element is
placed before the first strictly greater entry, hence after every
earlier entry it does not precede — the position Go's in-place
`insertionSort` (the `sort.Sort` path taken for slices of fewer than
13 elements) sinks it to. -/
def goInsert (less : α → α → Bool) (x : α) (l : List α) : List α :=
  match l with
  | [] => [x]
  | y :: ys => if less x y then x :: y :: ys else y :: goInsert less x ys

/-- The insertion-sort path of `sort.Sort(sortedCopySites{...})`, the
algorithm `sort.Sort` applies to slices of at most 12 elements: each
element in turn is inserted into the sorted prefix, keeping equal-key
elements in their original relative order.  For longer slices
`sort.Sort` switches to unstable partitioning, which this model does
not reproduce; theorems about tie order are therefore stated only for
lists in the insertion-sort regime. -/
def goSort (less : α → α → Bool) (l : List α) : List α :=
  l.foldl (fun acc x => goInsert less x acc) []

/-- The rendered diagnostic line of `printSites` for one site (without
the terminating newline): position, joined descriptions, the
singular/plural "should be made into" message, and the function
rendering in parentheses. -/
def renderSite (site : copySite) : String :=
  let sb := sentence site.shouldBe
  let msg := "should be made into" ++
    (if 1 < site.shouldBe.length then " pointers" else " a pointer")
  site.fn.pos.filename ++ ":" ++ toString site.fn.pos.line ++ ":" ++
    toString site.fn.pos.col ++ ": " ++ sb ++ " " ++ msg ++
    " (" ++ site.fn.funcStr ++ ")"

/-- Embeds `printSites`: sort the sites with `sortedCopySites.Less`, then emit
one line per site. -/
def printSites (sites : List copySite) : List String :=
  (goSort siteLess sites).map renderSite

/-- A named type definition from the resolved graph (`*types.TypeName`
in `info.Defs`): its `Id()` and its type. -/
structure TypeDefn where
  id : String
  ty : GoType

/-- The fully resolved type/signature graph `conf.Check` produces for a
package: named type definitions and function objects. -/
structure ResolvedGraph where
  defs : List TypeDefn
  funcs : List FuncSig

/-- The wide-set construction of `checkPkg`
(`if sizes.Sizeof(tn.Type()) > maxWidth { wideStructs[tn.Id()] = true }`):
membership in the resulting map as a predicate on ids. -/
def wideStructs (defs : List TypeDefn) (maxWidth w m : Int) : String → Bool :=
  fun id => defs.any fun td => td.id == id && decide (maxWidth < gsizeof w m td.ty)

/-- Embeds `checkPkg` around the type check: when `conf.Check` fails the
function returns only the wrapped error ("unable to type check package
%#v: ...", where `%#v` quotes the name) and no sites; otherwise it
classifies the wide types and scans every function. -/
def checkPkg (pkgName : String) (resolved : Except String ResolvedGraph)
    (maxWidth w m : Int) : Except String (List copySite) :=
  match resolved with
  | .error msg =>
    .error ("unable to type check package \"" ++ pkgName ++ "\": " ++ msg)
  | .ok g => .ok (findCopySites g.funcs (wideStructs g.defs maxWidth w m))

/-- The flow of `main` after flag parsing, for one package: run
`checkPkg` with the three flag values exactly as supplied (main performs no
validation on them) and, on success, print the sorted diagnostic
lines; on error, `log.Fatal` prints the error and nothing else. -/
def mainRun (maxWidth w m : Int) (pkgName : String)
    (resolved : Except String ResolvedGraph) : Except String (List String) :=
  (checkPkg pkgName resolved maxWidth w m).map printSites

/-- Default of the `-max` flag (wide threshold in bytes). -/
def defaultMaxStructWidth : Int := 16

/-- Default of the `-wordSize` flag. -/
def defaultWordSize : Int := 8

/-- Default of the `-maxAlign` flag. -/
def defaultMaxAlign : Int := 8

/-- The sort key of `sortedCopySites.Less`: the lexicographic triple
(file name, line, column) of the function's declaration position. -/
def posKey (s : copySite) : Lex (String × Lex (Nat × Nat)) :=
  toLex (s.fn.pos.filename, toLex (s.fn.pos.line, s.fn.pos.col))

/-- Strict comparison of two values through a key function, as a
Bool. -/
def keyLess {α κ : Type} [LinearOrder κ] (key : α → κ) (a b : α) : Bool :=
  decide (key a < key b)

/-- The unit's position for a fixture site: only file/line/column and
the rendered name matter to the reporter. -/
def fixtureSig (fname : String) (file : String) (line col : Nat) : FuncSig :=
  ⟨fname, ⟨file, line, col⟩, none, [], []⟩

/-- Fixture: a site whose function was declared at (fileB, 10, 1). -/
def siteFileB : copySite := ⟨fixtureSig "main.B" "fileB" 10 1, ["receiver"]⟩

/-- Fixture: first synthetic site at (fileA, 5, 1). -/
def siteFileA1 : copySite := ⟨fixtureSig "main.A1" "fileA" 5 1, ["receiver"]⟩

/-- Fixture: second synthetic site at the same position (fileA, 5, 1). -/
def siteFileA2 : copySite := ⟨fixtureSig "main.A2" "fileA" 5 1, ["receiver"]⟩

/-- Fixture: the wide named type `W` used by scanner scenarios. -/
def wideNamed : GoType :=
  .named "W" (.struct [.basic "int64" 8, .basic "int64" 8, .basic "int64" 8])

/-- Fixture: a wide set containing exactly the id `W`. -/
def wideOnlyW : String → Bool := fun id => id == "W"

/-- Fixture: a method with a wide by-value receiver and two wide
by-value parameters named `x` and `y`. -/
def methodScenario : FuncSig :=
  ⟨"main.T.M", ⟨"m.go", 3, 1⟩, some wideNamed,
    [⟨"x", wideNamed⟩, ⟨"y", wideNamed⟩], []⟩

/-- Fixture: a function touching `W` only through pointers, in the
receiver, its parameter, and its result. -/
def pointerOnlyFunc : FuncSig :=
  ⟨"main.P.M", ⟨"p.go", 7, 1⟩, some (.pointer wideNamed),
    [⟨"x", .pointer wideNamed⟩], [.pointer wideNamed]⟩

/-- Fixture: an anonymous struct literal of footprint 800 under the
default configuration. -/
def bigAnon : GoType := .struct (List.replicate 100 (.basic "int64" 8))

/-- Fixture: a function taking the anonymous 800-byte struct by
value. -/
def anonFunc : FuncSig := ⟨"main.Anon", ⟨"a.go", 2, 1⟩, none, [⟨"x", bigAnon⟩], []⟩

/-- Fixture: a 16-byte named type (exactly at the default
threshold). -/
def defnT16 : TypeDefn := ⟨"T16", .struct [.basic "int64" 8, .basic "int64" 8]⟩

/-- Fixture: a 17-byte named type (threshold+1 under the default
threshold). -/
def defnT17 : TypeDefn := ⟨"T17", .basic "byte17" 17⟩

/-- Fixture: a resolved graph with the two named types above. -/
def thresholdDefs : List TypeDefn := [defnT16, defnT17]

/-- Fixture: a tiny resolved graph used to show analysis proceeds under
a non-positive threshold: one empty named type and one function taking
it by value. -/
def tinyGraph : ResolvedGraph :=
  ⟨[⟨"Tiny", .struct []⟩],
   [⟨"main.F", ⟨"f.go", 1, 1⟩, none, [⟨"x", .named "Tiny" (.struct [])⟩], []⟩]⟩

/-- Membership in an insertion step: exactly the inserted element is
added. -/
theorem mem_goInsert {α : Type} (less : α → α → Bool) (x : α) (l : List α) (b : α) :
    b ∈ goInsert less x l ↔ b = x ∨ b ∈ l := by
  induction l with
  | nil => simp [goInsert]
  | cons y ys ih =>
    by_cases h : less x y = true
    · simp only [goInsert, if_pos h, List.mem_cons]
    · simp only [goInsert, if_neg h, List.mem_cons, ih]
      tauto

/-- Inserting into a list sorted by a key keeps it sorted. -/
theorem goInsert_sorted {α κ : Type} [LinearOrder κ] (key : α → κ) (x : α) (l : List α)
    (hl : l.Sorted fun a b => key a ≤ key b) :
    (goInsert (keyLess key) x l).Sorted fun a b => key a ≤ key b := by
  induction l with
  | nil => simp [goInsert]
  | cons y ys ih =>
    rw [List.sorted_cons] at hl
    obtain ⟨hy, hys⟩ := hl
    by_cases h : keyLess key x y = true
    · have hxy : key x < key y := by simpa [keyLess] using h
      simp only [goInsert, if_pos h]
      rw [List.sorted_cons]
      refine ⟨?_, List.sorted_cons.2 ⟨hy, hys⟩⟩
      intro b hb
      rcases List.mem_cons.1 hb with rfl | hb
      · exact le_of_lt hxy
      · exact le_of_lt (lt_of_lt_of_le hxy (hy b hb))
    · have hyx : key y ≤ key x := by simpa [keyLess, not_lt] using h
      simp only [goInsert, if_neg h]
      rw [List.sorted_cons]
      refine ⟨?_, ih hys⟩
      intro b hb
      rcases (mem_goInsert _ _ _ _).1 hb with rfl | hb
      · exact hyx
      · exact hy b hb

/-- Stability of one insertion step: filtering any single key class,
the inserted element lands after the elements already present. -/
theorem goInsert_filter {α κ : Type} [LinearOrder κ] [DecidableEq κ] (key : α → κ)
    (x : α) (l : List α) (k : κ)
    (hl : l.Sorted fun a b => key a ≤ key b) :
    (goInsert (keyLess key) x l).filter (fun a => decide (key a = k)) =
      l.filter (fun a => decide (key a = k)) ++ if key x = k then [x] else [] := by
  induction l with
  | nil => by_cases hx : key x = k <;> simp [goInsert, hx]
  | cons y ys ih =>
    rw [List.sorted_cons] at hl
    obtain ⟨hy, hys⟩ := hl
    by_cases h : keyLess key x y = true
    · have hxy : key x < key y := by simpa [keyLess] using h
      simp only [goInsert, if_pos h]
      by_cases hx : key x = k
      · have hnil : (y :: ys).filter (fun a => decide (key a = k)) = [] := by
          rw [List.filter_eq_nil_iff]
          intro a ha
          have hya : key y ≤ key a := by
            rcases List.mem_cons.1 ha with rfl | ha
            · exact le_refl _
            · exact hy a ha
          have : k < key a := lt_of_lt_of_le (hx ▸ hxy) hya
          simp
          exact fun hak => absurd (hak ▸ this) (lt_irrefl k)
        simp [List.filter_cons, hx, hnil]
      · simp [List.filter_cons, hx]
    · have hyx : key y ≤ key x := by simpa [keyLess, not_lt] using h
      simp only [goInsert, if_neg h]
      rw [List.filter_cons, List.filter_cons, ih hys]
      by_cases hpy : key y = k <;> simp [hpy]

/-- The insertion loop of the sort, over any sorted accumulator:
the result is sorted and every key class is the accumulator's class
followed by the input's class in input order. -/
theorem goSortLoop {α κ : Type} [LinearOrder κ] [DecidableEq κ] (key : α → κ)
    (l : List α) :
    ∀ acc, acc.Sorted (fun a b => key a ≤ key b) →
      (List.foldl (fun acc x => goInsert (keyLess key) x acc) acc l).Sorted
        (fun a b => key a ≤ key b) ∧
      ∀ k, (List.foldl (fun acc x => goInsert (keyLess key) x acc) acc l).filter
            (fun a => decide (key a = k)) =
          acc.filter (fun a => decide (key a = k)) ++ l.filter (fun a => decide (key a = k)) := by
  induction l with
  | nil =>
    intro acc hacc
    exact ⟨hacc, fun k => by simp⟩
  | cons x xs ih =>
    intro acc hacc
    have hins := goInsert_sorted key x acc hacc
    obtain ⟨hs, hf⟩ := ih (goInsert (keyLess key) x acc) hins
    refine ⟨hs, fun k => ?_⟩
    rw [List.foldl_cons, hf k, goInsert_filter key x acc k hacc]
    by_cases hx : key x = k <;> simp [List.filter_cons, hx]

/-- The sort is sorted by the key and stable: each key class of the
output equals the key class of the input, in input order. -/
theorem goSort_sorted_filter {α κ : Type} [LinearOrder κ] [DecidableEq κ] (key : α → κ)
    (l : List α) :
    (goSort (keyLess key) l).Sorted (fun a b => key a ≤ key b) ∧
    ∀ k, (goSort (keyLess key) l).filter (fun a => decide (key a = k)) =
      l.filter (fun a => decide (key a = k)) := by
  have h := goSortLoop key l [] (by simp)
  refine ⟨h.1, fun k => ?_⟩
  have := h.2 k
  simpa using this

/-- Insertion grows the length by one. -/
theorem goInsert_length {α : Type} (less : α → α → Bool) (x : α) (l : List α) :
    (goInsert less x l).length = l.length + 1 := by
  induction l with
  | nil => rfl
  | cons y ys ih => by_cases h : less x y = true <;> simp [goInsert, h, ih]

/-- The sort keeps the number of elements. -/
theorem goSort_length {α : Type} (less : α → α → Bool) (l : List α) :
    (goSort less l).length = l.length := by
  suffices h : ∀ acc, (List.foldl (fun acc x => goInsert less x acc) acc l).length =
      acc.length + l.length by
    simpa [goSort] using h []
  induction l with
  | nil => intro acc; simp
  | cons x xs ih =>
    intro acc
    rw [List.foldl_cons, ih, goInsert_length]
    simp
    omega

/-- The source's three-way comparison equals the strict lexicographic
order on the (file name, line, column) key. -/
theorem siteLess_eq_keyLess (a b : copySite) : siteLess a b = keyLess posKey a b := by
  unfold siteLess keyLess posKey
  by_cases h1 : a.fn.pos.filename = b.fn.pos.filename
  · by_cases h2 : a.fn.pos.line = b.fn.pos.line
    · simp [h1, h2, Prod.Lex.lt_iff]
    · simp [h1, h2, Prod.Lex.lt_iff]
  · simp [h1, Prod.Lex.lt_iff]

/-- C1: for every named type definition in the resolved graph (with the
graph's unique-identity invariant), its identity is in the wide set iff
its footprint is strictly greater than the threshold; a footprint
exactly at the threshold is never wide and a footprint of threshold+1
always is. -/
theorem wide_threshold_exclusive (defs : List TypeDefn) (mw w m : Int) (td : TypeDefn)
    (hmem : td ∈ defs) (hids : (defs.map TypeDefn.id).Nodup) :
    (wideStructs defs mw w m td.id = true ↔ mw < gsizeof w m td.ty) ∧
    (gsizeof w m td.ty = mw → wideStructs defs mw w m td.id = false) ∧
    (gsizeof w m td.ty = mw + 1 → wideStructs defs mw w m td.id = true) := by
  have hiff : wideStructs defs mw w m td.id = true ↔ mw < gsizeof w m td.ty := by
    constructor
    · intro h
      simp only [wideStructs, List.any_eq_true] at h
      obtain ⟨td', hmem', hcond⟩ := h
      rw [Bool.and_eq_true] at hcond
      obtain ⟨hid, hsz⟩ := hcond
      have hideq : td'.id = td.id := by simpa using hid
      have heq : td' = td :=
        List.inj_on_of_nodup_map hids hmem' hmem hideq
      rw [← heq]
      exact of_decide_eq_true hsz
    · intro h
      simp only [wideStructs, List.any_eq_true]
      exact ⟨td, hmem, by simp [h]⟩
  refine ⟨hiff, fun h => ?_, fun h => hiff.2 (by omega)⟩
  cases hb : wideStructs defs mw w m td.id with
  | false => rfl
  | true =>
    have := hiff.1 hb
    omega

/-- Witness for C1: under threshold 16 the 16-byte type `T16` is not
wide and the 17-byte type `T17` is. -/
theorem wide_threshold_exclusive_witness :
    wideStructs thresholdDefs 16 8 8 "T16" = false ∧
    wideStructs thresholdDefs 16 8 8 "T17" = true := by
  constructor
  · exact (wide_threshold_exclusive thresholdDefs 16 8 8 defnT16
      (by simp [thresholdDefs]) (by decide)).2.1 rfl
  · exact (wide_threshold_exclusive thresholdDefs 16 8 8 defnT17
      (by simp [thresholdDefs]) (by decide)).2.2 (by decide)

/-- C2 counterexample: a two-element list is rendered "A, and B" (with
a comma before the "and"), not "A and B" as the claim states. -/
theorem sentence_two_items_counterexample :
    sentence ["A", "B"] ≠ "A and B" ∧ sentence ["A", "B"] = "A, and B" :=
  ⟨by decide, rfl⟩

/-- C2 (amended): one offending position renders bare with no "and",
two render "A, and B" (the joiner places ", and " before the last part
even for two items), and three render "A, B, and C". -/
theorem sentence_oxford_amended (a b c : String) :
    sentence [a] = a ∧
    sentence [a, b] = a ++ ", and " ++ b ∧
    sentence [a, b, c] = a ++ ", " ++ b ++ ", and " ++ c :=
  ⟨rfl, rfl, rfl⟩

/-- C3 counterexample: with the non-positive threshold -1 nothing is
rejected — the analysis runs to completion and reports a site (the
empty struct's footprint 0 exceeds -1), contradicting the claim that
invalid configurations are rejected before analysis begins. -/
theorem config_not_validated_counterexample :
    mainRun (-1) 8 8 "p" (.ok tinyGraph) =
      .ok ["f.go:1:1: parameter \x27x\x27 at index 0 should be made into a pointer (main.F)"] :=
  rfl

/-- C3 (amended): the three configuration flags default to 16, 8 and 8
and are never validated — no check rejects a non-positive value before
analysis.  The threshold in particular is applied exactly as supplied:
under the default word size and alignment the analysis runs to a
result for every integer threshold, and any negative threshold makes
even the empty struct wide and reported.  (Completion is not claimed
for arbitrary word-size/alignment values: an unvalidated `-maxAlign=0`
reaches the layout code and crashes the run with a division by zero
instead of a clean rejection, a path this total model does not
reproduce.) -/
theorem config_defaults_no_validation (mw : Int) (name : String) (g : ResolvedGraph) :
    defaultMaxStructWidth = 16 ∧ defaultWordSize = 8 ∧ defaultMaxAlign = 8 ∧
    (∃ lines, mainRun mw 8 8 name (.ok g) = .ok lines) ∧
    (mw < 0 → mainRun mw 8 8 "p" (.ok tinyGraph) =
      .ok ["f.go:1:1: parameter \x27x\x27 at index 0 should be made into a pointer (main.F)"]) := by
  refine ⟨rfl, rfl, rfl,
    ⟨printSites (findCopySites g.funcs (wideStructs g.defs mw 8 8)), rfl⟩, fun h => ?_⟩
  have hd : decide (mw < gsizeof 8 8 (GoType.struct [])) = true :=
    decide_eq_true (show mw < 0 from h)
  simp [mainRun, checkPkg, tinyGraph, printSites, goSort, goInsert, renderSite, sentence,
    findCopySites, offendingDescs, recvDescs, paramDescs, paramDescsFrom, resultDescs,
    resultDescsFrom, isWideStructTyped, wideStructs, hd]
  rfl

/-- C4: for site lists in the regime where `sort.Sort` runs its
insertion-sort path (at most 12 elements — beyond that `sort.Sort`
partitions unstably and guarantees no tie order), the reporter's sort
orders sites ascending by the (file name, line, column) key of the
declaration position and sites with identical keys keep their relative
scan order (each key class of the output is the input's key class
unchanged); the spec's scenario — (fileB,10,1) then two synthetic
sites at (fileA,5,1) — reports the two fileA sites in their original
relative order before the fileB site. -/
theorem report_order_sorted_stable (sites : List copySite)
    (hlen : sites.length ≤ 12) :
    (goSort siteLess sites).Sorted (fun a b => posKey a ≤ posKey b) ∧
    (∀ k, (goSort siteLess sites).filter (fun s => decide (posKey s = k)) =
      sites.filter (fun s => decide (posKey s = k))) ∧
    goSort siteLess [siteFileB, siteFileA1, siteFileA2] =
      [siteFileA1, siteFileA2, siteFileB] := by
  have hfun : siteLess = keyLess posKey :=
    funext fun a => funext fun b => siteLess_eq_keyLess a b
  obtain ⟨hs, hf⟩ := goSort_sorted_filter posKey sites
  refine ⟨by rw [hfun]; exact hs, by rw [hfun]; exact hf, ?_⟩
  have hAB : (decide (("fileA" : String) < "fileB")) = true :=
    decide_eq_true (by rw [String.lt_iff_toList_lt]; decide)
  simp [goSort, goInsert, siteLess, siteFileA1, siteFileA2, siteFileB, fixtureSig, hAB]
  decide

/-- Witness for C4: the three-site scenario list is within the
insertion-sort regime and comes out with the two fileA sites first, in
their original relative order. -/
theorem report_order_sorted_stable_witness :
    goSort siteLess [siteFileB, siteFileA1, siteFileA2] =
      [siteFileA1, siteFileA2, siteFileB] :=
  (report_order_sorted_stable [siteFileB, siteFileA1, siteFileA2] (by decide)).2.2

/-- C5: a pointer to a wide type is never flagged, and a function whose
receiver, parameters and results all reach the wide type only through
pointers accumulates no offending positions and yields no copy
site. -/
theorem reference_immunity (f : FuncSig) (wide : String → Bool)
    (hr : ∀ rt, f.recv = some rt → ∃ u, rt = GoType.pointer u)
    (hp : ∀ p ∈ f.params, ∃ u, p.ty = GoType.pointer u)
    (hres : ∀ t ∈ f.results, ∃ u, t = GoType.pointer u) :
    (∀ u, isWideStructTyped (GoType.pointer u) wide = false) ∧
    offendingDescs f wide = [] ∧
    findCopySites [f] wide = [] := by
  have hparams : ∀ (i : Nat) (ps : List Param), (∀ p ∈ ps, ∃ u, p.ty = GoType.pointer u) →
      paramDescsFrom wide i ps = [] := by
    intro i ps
    induction ps generalizing i with
    | nil => intro _; rfl
    | cons p r ih =>
      intro h
      obtain ⟨u, hu⟩ := h p (List.mem_cons_self _ _)
      simp [paramDescsFrom, hu, isWideStructTyped,
        ih _ (fun q hq => h q (List.mem_cons_of_mem _ hq))]
  have hresults : ∀ (i : Nat) (ts : List GoType), (∀ t ∈ ts, ∃ u, t = GoType.pointer u) →
      resultDescsFrom wide i ts = [] := by
    intro i ts
    induction ts generalizing i with
    | nil => intro _; rfl
    | cons t r ih =>
      intro h
      obtain ⟨u, hu⟩ := h t (List.mem_cons_self _ _)
      simp [resultDescsFrom, hu, isWideStructTyped,
        ih _ (fun q hq => h q (List.mem_cons_of_mem _ hq))]
  have hrecv : recvDescs f wide = [] := by
    unfold recvDescs
    cases hfr : f.recv with
    | none => rfl
    | some rt =>
      obtain ⟨u, hu⟩ := hr rt hfr
      subst hu
      simp [isWideStructTyped]
  have hoff : offendingDescs f wide = [] := by
    simp [offendingDescs, paramDescs, resultDescs, hrecv,
      hparams 0 f.params hp, hresults 0 f.results hres]
  exact ⟨fun u => rfl, hoff, by simp [findCopySites, hoff]⟩

/-- Witness for C5: the fixture that touches the wide type `W` only
through pointers in every position yields no copy site. -/
theorem reference_immunity_witness :
    offendingDescs pointerOnlyFunc wideOnlyW = [] ∧
    findCopySites [pointerOnlyFunc] wideOnlyW = [] := by
  have h := reference_immunity pointerOnlyFunc wideOnlyW
    (fun rt hrt => ⟨wideNamed, by simp [pointerOnlyFunc] at hrt; exact hrt.symm⟩)
    (fun p hp => ⟨wideNamed, by simp [pointerOnlyFunc] at hp; rw [hp]⟩)
    (fun t ht => ⟨wideNamed, by simp [pointerOnlyFunc] at ht; rw [ht]⟩)
  exact ⟨h.2.1, h.2.2⟩

/-- C6: the scanner emits at most one copy site per scanned signature
(the sites' functions form a sublist of the input), every emitted site
carries the nonempty receiver-then-parameters-then-results description
list of its signature, a signature with no offending position yields
no record, every signature with at least one offending position does
emit its one copy site with the full ordered description list, and the
scenario method with a wide receiver and two wide parameters yields
exactly one site with three ordered descriptions, receiver first. -/
theorem one_site_per_signature (wide : String → Bool) (funcs : List FuncSig) :
    List.Sublist ((findCopySites funcs wide).map copySite.fn) funcs ∧
    (∀ cs ∈ findCopySites funcs wide,
      cs.shouldBe = recvDescs cs.fn wide ++ paramDescs cs.fn wide ++ resultDescs cs.fn wide ∧
      cs.shouldBe ≠ []) ∧
    (∀ f ∈ funcs, offendingDescs f wide = [] →
      ∀ cs ∈ findCopySites funcs wide, cs.fn ≠ f) ∧
    (∀ f ∈ funcs, offendingDescs f wide ≠ [] →
      copySite.mk f (offendingDescs f wide) ∈ findCopySites funcs wide) ∧
    findCopySites [methodScenario] wideOnlyW =
      [⟨methodScenario, ["receiver", "parameter \x27x\x27 at index 0",
        "parameter \x27y\x27 at index 1"]⟩] := by
  have hmain : List.Sublist ((findCopySites funcs wide).map copySite.fn) funcs ∧
      (∀ cs ∈ findCopySites funcs wide,
        cs.shouldBe = offendingDescs cs.fn wide ∧ cs.shouldBe ≠ []) ∧
      (∀ f ∈ funcs, offendingDescs f wide ≠ [] →
        copySite.mk f (offendingDescs f wide) ∈ findCopySites funcs wide) := by
    induction funcs with
    | nil =>
      exact ⟨List.Sublist.slnil, fun cs hcs => absurd hcs (List.not_mem_nil cs),
        fun f hf => absurd hf (List.not_mem_nil f)⟩
    | cons f fs ih =>
      obtain ⟨ihs, ihm, ihe⟩ := ih
      by_cases h : 0 < (offendingDescs f wide).length
      · have hrw : findCopySites (f :: fs) wide =
            ⟨f, offendingDescs f wide⟩ :: findCopySites fs wide := by
          simp [findCopySites, h]
        rw [hrw]
        refine ⟨List.Sublist.cons₂ f ihs, ?_, ?_⟩
        · intro cs hcs
          rcases List.mem_cons.1 hcs with rfl | hcs
          · refine ⟨rfl, fun hnil => ?_⟩
            have hoffnil : offendingDescs f wide = [] := hnil
            rw [hoffnil] at h
            simp at h
          · exact ihm cs hcs
        · intro g hg hgoff
          rcases List.mem_cons.1 hg with rfl | hg
          · exact List.mem_cons_self _ _
          · exact List.mem_cons_of_mem _ (ihe g hg hgoff)
      · have hrw : findCopySites (f :: fs) wide = findCopySites fs wide := by
          simp [findCopySites, h]
        rw [hrw]
        refine ⟨List.Sublist.cons f ihs, ihm, ?_⟩
        intro g hg hgoff
        rcases List.mem_cons.1 hg with rfl | hg
        · exact absurd (List.length_eq_zero.1 (by omega)) hgoff
        · exact ihe g hg hgoff
  refine ⟨hmain.1, fun cs hcs => ?_, fun f hf hoff cs hcs heq => ?_, hmain.2.2, ?_⟩
  · have h2 := hmain.2.1 cs hcs
    exact ⟨by rw [h2.1]; rfl, h2.2⟩
  · have h2 := hmain.2.1 cs hcs
    apply h2.2
    rw [h2.1, heq, hoff]
  · rfl

/-- C7: the reporter renders, in sorted order, exactly one line per
site of the form
file:line:column: descriptions should be made into a pointer/pointers
(function), the plural being used iff the site recorded more than one
offending position. -/
theorem diagnostic_line_format (sites : List copySite) :
    printSites sites = (goSort siteLess sites).map (fun site =>
      site.fn.pos.filename ++ ":" ++ toString site.fn.pos.line ++ ":" ++
        toString site.fn.pos.col ++ ": " ++ sentence site.shouldBe ++ " " ++
        (if 1 < site.shouldBe.length then "should be made into pointers"
         else "should be made into a pointer") ++
        " (" ++ site.fn.funcStr ++ ")") ∧
    (printSites sites).length = sites.length := by
  constructor
  · unfold printSites
    congr 1
    funext site
    unfold renderSite
    by_cases h : 1 < site.shouldBe.length
    · simp only [if_pos h]
      have hlit : ("should be made into" ++ " pointers" : String) =
          "should be made into pointers" := by decide
      rw [hlit]
    · simp only [if_neg h]
      have hlit : ("should be made into" ++ " a pointer" : String) =
          "should be made into a pointer" := by decide
      rw [hlit]
  · unfold printSites
    rw [List.length_map]
    exact goSort_length siteLess sites

/-- C8: when type resolution fails, `checkPkg` aborts with a single
descriptive error, never returns a site list, and the run prints no
diagnostic lines. -/
theorem resolution_failure_aborts (name e : String) (mw w m : Int) :
    checkPkg name (.error e) mw w m =
      .error ("unable to type check package \"" ++ name ++ "\": " ++ e) ∧
    (∀ sites, checkPkg name (.error e) mw w m ≠ .ok sites) ∧
    mainRun mw w m name (.error e) =
      .error ("unable to type check package \"" ++ name ++ "\": " ++ e) ∧
    (∀ lines, mainRun mw w m name (.error e) ≠ .ok lines) :=
  ⟨rfl, fun sites h => by simp [checkPkg] at h, rfl,
    fun lines h => by simp [mainRun, checkPkg, Except.map] at h⟩

/-- C9: the size model reproduces struct padding — fields of
sizes/alignments [1, 8] under word size 8 and max alignment 8 give
footprint 16 (1 byte, 7 bytes padding, 8 bytes), not 9 — and a struct
with no fields has footprint 0 under every configuration. -/
theorem footprint_padding :
    gsizeof 8 8 (.struct [.basic "b1" 1, .basic "b8" 8]) = 16 ∧
    gsizeof 8 8 (.struct [.basic "b1" 1, .basic "b8" 8]) ≠ 9 ∧
    ∀ w m : Int, gsizeof w m (.struct []) = 0 :=
  ⟨rfl, by decide, fun w m => rfl⟩

/-- C10: only named types can be flagged — the wideness test is false
for every non-named type reference, so a function taking an anonymous
composite by value yields no copy site whatever the wide set. -/
theorem only_named_flagged (t : GoType) (wide : String → Bool)
    (h : ∀ id u, t ≠ GoType.named id u) :
    isWideStructTyped t wide = false ∧
    (∀ (fname : String) (pos : Position) (vn : String),
      findCopySites [⟨fname, pos, none, [⟨vn, t⟩], []⟩] wide = []) := by
  have hw : isWideStructTyped t wide = false := by
    cases t with
    | named id u => exact absurd rfl (h id u)
    | basic n s => rfl
    | pointer u => rfl
    | slice u => rfl
    | struct fs => rfl
  refine ⟨hw, fun fname pos vn => ?_⟩
  simp [findCopySites, offendingDescs, recvDescs, paramDescs, resultDescs,
    paramDescsFrom, resultDescsFrom, hw]

set_option maxRecDepth 8192 in
/-- Witness for C10: the anonymous 800-byte struct is never wide even
under the all-inclusive wide set, and the fixture function taking it by
value yields no copy site. -/
theorem only_named_flagged_witness :
    gsizeof 8 8 bigAnon = 800 ∧
    isWideStructTyped bigAnon (fun _ => true) = false ∧
    findCopySites [anonFunc] (fun _ => true) = [] := by
  have h := only_named_flagged bigAnon (fun _ => true)
    (fun id u hne => by simp [bigAnon] at hne)
  exact ⟨by decide, h.1, h.2 "main.Anon" ⟨"a.go", 2, 1⟩ "x"⟩

end Copyfighter
